import Mathlib

/-!
Verification of the pipeline execution engine of the `openapi-validator-cli`
repository: the status ledger (`append_status` / `load_status_entries`), the
dashboard renderer (`run_dashboard` / `generate_html`), the process runner
(`run_command_with_logging`), the generate and compile stage executors
(`run_generate_for_label` / `resolve_generator_configs`, `run_compile` /
`resolve_compile_tasks`) and the stage sequencing of `cmd_validate`
(src/lib.rs, with the equivalent modular code under src/steps/).

Modelling conventions, shared by every definition below:
* Rust `String`/`&str` values are Lean `String`s; where a proof needs to walk
  the characters, the `String.data` character list is used.  Rust's byte-wise
  ordering and splitting of UTF-8 strings agrees with the code-point-wise
  ordering and splitting used here.
* the filesystem state a function consults is passed explicitly (a directory
  listing, a flag for directory existence), and the append-only status ledger
  is the list of entries a run appends, in execution order (persistence of the
  ledger file is modelled separately, character for character, for the
  round-trip theorems).
* subprocess execution is an environment `Nat → Except String Bool`: the value
  at `i` is the outcome of the `i`-th external invocation a stage runs —
  `.ok true`/`.ok false` for a subprocess that ran to completion with zero /
  nonzero exit code, `.error e` for a hard I/O error inside that task (which
  the Rust `?` operator propagates out of the stage).  Log-file *contents* are
  outside the model; log *paths* are modelled exactly.
-/

namespace OAV

/-- One record of the status ledger, mirroring `StatusEntry` in src/lib.rs:
`(stage, scope, target, status, log_path)`. -/
structure StatusEntry where
  stage : String
  scope : String
  target : String
  status : String
  log_path : String
deriving DecidableEq, Repr

/-! ## Character-level string utilities (Rust `str` semantics) -/

/-- Split a character list at every occurrence of `c`, keeping empty pieces:
the semantics of Rust's `str::split(c)`. -/
def splitCh (c : Char) : List Char → List (List Char)
  | [] => [[]]
  | x :: xs =>
    if x = c then [] :: splitCh c xs
    else
      match splitCh c xs with
      | [] => [[x]]
      | h :: t => (x :: h) :: t

/-- Drop the final piece of a split when it is empty: Rust's `str::lines`
treats a trailing line terminator as optional. -/
def dropFinalEmpty : List (List Char) → List (List Char)
  | [] => []
  | [l] => if l.isEmpty then [] else [l]
  | l :: l' :: rest => l :: dropFinalEmpty (l' :: rest)

/-- Remove one trailing carriage return: Rust's `str::lines` splits at `\n`
and additionally strips a `\r` that directly precedes it. -/
def stripTrailingCR (l : List Char) : List Char :=
  if l.getLast? = some '\r' then l.dropLast else l

/-- The lines of a string, with Rust `str::lines` semantics: split at `\n`,
the final terminator optional, a `\r` before each `\n` stripped. -/
def rustLines (s : String) : List (List Char) :=
  (dropFinalEmpty (splitCh '\n' s.data)).map stripTrailingCR

/-- Rust's `str::trim` (whitespace removed from both ends). -/
def rustTrim (s : String) : String :=
  ((s.data.dropWhile Char.isWhitespace).reverse.dropWhile Char.isWhitespace).reverse.asString

/-- Split a file name at its last dot, Rust `Path` semantics: `some (stem-part,
extension)` when the body (the name without a leading hidden-file dot) has an
embedded dot, `none` otherwise.  Helper for `rustSplitName`. -/
def splitAtLastDot : List Char → Option (List Char × List Char)
  | [] => none
  | c :: rest =>
    match splitAtLastDot rest with
    | some (pre, suf) => some (c :: pre, suf)
    | none => if c = '.' then some ([], rest) else none

/-- The `(file_stem, extension)` split of a file name, following Rust's
`Path::file_stem` / `Path::extension`: a leading dot marks a hidden file and
is not an extension separator; otherwise the name splits at its last dot. -/
def rustSplitName (name : String) : String × Option String :=
  match name.data with
  | [] => (name, none)
  | c :: rest =>
    let lead : List Char := if c = '.' then [c] else []
    let body : List Char := if c = '.' then rest else c :: rest
    match splitAtLastDot body with
    | some (pre, suf) => ((lead ++ pre).asString, some suf.asString)
    | none => (name, none)

/-- Whether a directory entry name has extension `yaml`, as
`path.extension().and_then(|ext| ext.to_str()) == Some("yaml")` tests it. -/
def hasYamlExt (name : String) : Bool :=
  (rustSplitName name).2 = some "yaml"

/-! ## Status ledger (src/lib.rs `append_status`, `load_status_entries`) -/

/-- The single line `append_status` writes for one entry:
`stage\tscope\ttarget\tstatus\tlog_path\n`. -/
def statusLine (e : StatusEntry) : String :=
  e.stage ++ "\t" ++ e.scope ++ "\t" ++ e.target ++ "\t" ++ e.status ++ "\t" ++ e.log_path ++ "\n"

/-- Model of `append_status`: open the ledger in append mode and write one line. -/
def appendStatus (ledger : String) (e : StatusEntry) : String :=
  ledger ++ statusLine e

/-- The ledger file content after appending each entry of `es` in order to an
initially empty file (`prepare_runtime_dirs` truncates `status.tsv`). -/
def ledgerContent (es : List StatusEntry) : String :=
  es.foldl appendStatus ""

/-- Parse one ledger line as `load_status_entries` does: split at tabs, skip
the line when fewer than five fields, keep the first five otherwise. -/
def parseStatusLine (line : List Char) : Option StatusEntry :=
  match splitCh '\t' line with
  | s0 :: s1 :: s2 :: s3 :: s4 :: _ =>
    some ⟨s0.asString, s1.asString, s2.asString, s3.asString, s4.asString⟩
  | _ => none

/-- Model of `load_status_entries`: every line of the file, malformed (short) lines
skipped, entries in file order.  Total: malformed input never fails. -/
def loadStatusEntries (content : String) : List StatusEntry :=
  (rustLines content).filterMap parseStatusLine

/-- A field free of the two structural characters of the ledger format, tab
and newline. -/
abbrev fieldClean (s : String) : Prop :=
  '\t' ∉ s.data ∧ '\n' ∉ s.data

/-- An entry all of whose five fields are free of tabs and newlines. -/
abbrev entryClean (e : StatusEntry) : Prop :=
  fieldClean e.stage ∧ fieldClean e.scope ∧ fieldClean e.target ∧ fieldClean e.status ∧
    fieldClean e.log_path

/-- Character sequence of one ledger line, without its terminating newline. -/
def lineBody (e : StatusEntry) : List Char :=
  e.stage.data ++ '\t' :: (e.scope.data ++ '\t' :: (e.target.data ++ '\t' ::
    (e.status.data ++ '\t' :: e.log_path.data)))

/-! ## Dashboard renderer (src/lib.rs `run_dashboard`, src/steps/report.rs
`generate_html`) -/

/-- The data `generate_html` renders into the dashboard document: the three
aggregate counters of the summary block, and one section per pipeline stage
that has at least one entry, in the fixed order lint, generate, compile, each
holding its entries in ledger order.  The surrounding HTML markup carries no
further information and is not modelled. -/
structure Dashboard where
  total : Nat
  passed : Nat
  failed : Nat
  sections : List (String × List StatusEntry)
deriving DecidableEq, Repr

/-- Model of `generate_html` (equivalently the body of `run_dashboard`): `total` is the
number of entries, `passed`/`failed` count entries with status `ok`/`fail`,
and a stage section is emitted exactly when the stage has entries. -/
def generateDashboard (entries : List StatusEntry) : Dashboard :=
  { total := entries.length
    passed := (entries.filter (fun e => e.status = "ok")).length
    failed := (entries.filter (fun e => e.status = "fail")).length
    sections := ["lint", "generate", "compile"].filterMap fun s =>
      let se := entries.filter (fun e => e.stage = s)
      if se.isEmpty then none else some (s, se) }

/-! ## Process runner (src/lib.rs `run_command_with_logging`, src/docker.rs
`run_with_logging`) -/

/-- What became of the attempt to execute the external command: it either
could not be started (`spawn` / `Command::status` returned an I/O error), or
it ran to completion with the given exit code. -/
inductive SpawnOutcome
  | failed
  | exited (code : Nat)
deriving DecidableEq, Repr

/-- The I/O environment one `run_command_with_logging` call faces: the
verbosity flag, whether opening the log file in append mode succeeds, whether
`try_clone` of the log handle succeeds (consulted on the non-verbose path),
whether `child.wait()` succeeds (consulted on the verbose path), and the
subprocess outcome. -/
structure RunEnv where
  verbose : Bool
  logOpenOk : Bool
  cloneOk : Bool
  waitOk : Bool
  spawn : SpawnOutcome

/-- Model of `run_command_with_logging`.  Verbose path: spawn with piped streams, open
the log file, stream both pipes, wait; the result is `status.success()`.
Non-verbose path: open the log file, clone the handle, redirect both streams
into it, run; the result is `status.success()`.  Each fallible step errs in
the order the source performs it. -/
def runCommandWithLogging (env : RunEnv) : Except String Bool :=
  if env.verbose then
    match env.spawn with
    | .failed => .error "Failed to start Docker command"
    | .exited code =>
      if !env.logOpenOk then .error "Failed to open log file"
      else if !env.waitOk then .error "Failed to wait for command"
      else .ok (code == 0)
  else
    if !env.logOpenOk then .error "Failed to open log file"
    else if !env.cloneOk then .error "Failed to clone log file"
    else
      match env.spawn with
      | .failed => .error "Failed to run Docker command"
      | .exited code => .ok (code == 0)

/-! ## Generate stage (src/lib.rs `run_generate_for_label`,
`resolve_generator_configs`; src/steps/generate.rs `run_for_scope`,
`resolve_configs`) -/

/-- The state of a scope's generator configuration directory:
whether `config_dir.is_dir()` holds, and the names of its entries. -/
structure DirState where
  isDir : Bool
  files : List String
deriving DecidableEq, Repr

/-- The requested-names branch of `resolve_generator_configs`: each name is
trimmed, blank names are skipped, and each remaining name must have an
existing configuration file `<name>.yaml` or the whole resolution fails at the
first missing one. -/
def resolveRequested (d : DirState) : List String → Except String (List String)
  | [] => .ok []
  | raw :: rest =>
    let name := rustTrim raw
    if name = "" then resolveRequested d rest
    else
      let file := name ++ ".yaml"
      if d.files.contains file then
        match resolveRequested d rest with
        | .error e => .error e
        | .ok cs => .ok (file :: cs)
      else .error ("Missing generator config: " ++ file)

/-- Model of `resolve_generator_configs`: fail when the configuration directory is
missing; resolve the requested names, or, when none were requested, every
directory entry with extension `yaml`; sort the result (`Vec::sort` on paths
sharing the directory prefix orders by file name); fail when it is empty. -/
def resolveGeneratorConfigs (d : DirState) (requested : List String) :
    Except String (List String) :=
  if !d.isDir then .error "Missing config directory"
  else
    match
      (if requested.isEmpty then .ok (d.files.filter fun f => hasYamlExt f)
       else resolveRequested d requested) with
    | .error e => .error e
    | .ok cs =>
      let sorted := List.insertionSort (fun a b : String => a ≤ b) cs
      if sorted.isEmpty then .error "No generator configs found"
      else .ok sorted

/-- What a stage executor produced: its `Result<bool>` return value, the
status entries it appended to the ledger in order, and how many external
subprocesses it launched. -/
structure StageOutcome where
  result : Except String Bool
  entries : List StatusEntry
  runs : Nat
deriving Repr

/-- Log path of one generate task, `reports/generate/<label>/<name>.log`
relative to the workspace. -/
def generateLogPath (label name : String) : String :=
  ".oav/reports/generate/" ++ label ++ "/" ++ name ++ ".log"

/-- Log path the synthetic `_config_` entry points at,
`reports/generate/<label>/_errors.log`. -/
def generateErrorLog (label : String) : String :=
  ".oav/reports/generate/" ++ label ++ "/_errors.log"

/-- The per-config loop of `run_generate_for_label`: for each resolved
configuration file, run the generator container (outcome `env i` for the
`i`-th launch), append one `ok`/`fail` entry named by the config's file stem,
and count a failure on `ok false`; a hard error (`.error`) propagates at once,
keeping the entries appended so far.  The stage result is
`failures == 0`. -/
def runGenerateTasks (label : String) (env : Nat → Except String Bool) :
    Nat → List String → StageOutcome
  | _, [] => ⟨.ok true, [], 0⟩
  | i, cfg :: rest =>
    let name := (rustSplitName cfg).1
    match env i with
    | .error e => ⟨.error e, [], 0⟩
    | .ok success =>
      let entry : StatusEntry :=
        ⟨"generate", label, name, if success then "ok" else "fail", generateLogPath label name⟩
      let tail := runGenerateTasks label env (i + 1) rest
      match tail.result with
      | .error e => ⟨.error e, entry :: tail.entries, 1 + tail.runs⟩
      | .ok restOk => ⟨.ok (success && restOk), entry :: tail.entries, 1 + tail.runs⟩

/-- Model of `run_generate_for_label`: resolve the scope's configurations; on a
resolution error, append the error message to `_errors.log`, append exactly
one synthetic failed entry with target `_config_`, and return `Ok(false)`
without launching anything; otherwise run every resolved configuration. -/
def runGenerateForLabel (label : String) (d : DirState) (requested : List String)
    (env : Nat → Except String Bool) : StageOutcome :=
  match resolveGeneratorConfigs d requested with
  | .error _ =>
    ⟨.ok false, [⟨"generate", label, "_config_", "fail", generateErrorLog label⟩], 0⟩
  | .ok configs => runGenerateTasks label env 0 configs

/-! ## Compile stage (src/lib.rs `run_compile`, `resolve_compile_tasks`;
src/steps/compile.rs `run`, `resolve_tasks`) -/

/-- The hard-coded supported server generators (`SUPPORTED_SERVER_GENERATORS`). -/
def SUPPORTED_SERVER_GENERATORS : List String :=
  ["aspnetcore", "go-server", "kotlin-spring", "python-fastapi", "spring", "typescript-nestjs"]

/-- The hard-coded supported client generators (`SUPPORTED_CLIENT_GENERATORS`). -/
def SUPPORTED_CLIENT_GENERATORS : List String :=
  ["csharp", "go", "java", "kotlin", "python", "typescript-axios", "typescript-fetch",
    "typescript-node"]

/-- Mirror of `CompileTask` of src/lib.rs: scope, build service name, generator name. -/
structure CompileTask where
  scope : String
  service : String
  name : String
deriving DecidableEq, Repr

/-- The name list `resolve_compile_tasks` iterates: the requested names
trimmed with blanks dropped, or, when none were requested, the whole
supported list. -/
def compileNames (requested supported : List String) : List String :=
  if requested.isEmpty then supported
  else (requested.map fun r => rustTrim r).filter fun n => n ≠ ""

/-- The per-name loop of `resolve_compile_tasks`: each name must be in the
supported set — the first unsupported one aborts the whole resolution — and
maps to the build service `<pfx><name>`. -/
def tasksFor (scope : String) (supported : List String) (pfx : String) :
    List String → Except String (List CompileTask)
  | [] => .ok []
  | n :: rest =>
    if supported.contains n then
      match tasksFor scope supported pfx rest with
      | .error e => .error e
      | .ok ts => .ok (⟨scope, pfx ++ n, n⟩ :: ts)
    else .error ("Unsupported " ++ scope ++ " generator for compile: " ++ n)

/-- Model of `resolve_compile_tasks` for one scope. -/
def resolveCompileTasks (scope : String) (requested supported : List String)
    (pfx : String) : Except String (List CompileTask) :=
  tasksFor scope supported pfx (compileNames requested supported)

/-- The validation mode (`Mode` of the configuration): which scopes the
generate and compile stages fan out to. -/
inductive Mode
  | server
  | client
  | both
deriving DecidableEq, Repr

/-- The task-resolution prologue of `run_compile`: server tasks are resolved
for modes server/both (supported set `SUPPORTED_SERVER_GENERATORS`, service
`build-<name>`), client tasks for modes client/both (supported set
`SUPPORTED_CLIENT_GENERATORS`, service `build-client-<name>`), server first;
a resolution error aborts before any task runs. -/
def resolveAllCompileTasks (m : Mode) (serverGens clientGens : List String) :
    Except String (List CompileTask) :=
  match m with
  | .server => resolveCompileTasks "server" serverGens SUPPORTED_SERVER_GENERATORS "build-"
  | .client =>
    resolveCompileTasks "client" clientGens SUPPORTED_CLIENT_GENERATORS "build-client-"
  | .both =>
    match resolveCompileTasks "server" serverGens SUPPORTED_SERVER_GENERATORS "build-" with
    | .error e => .error e
    | .ok ts =>
      match resolveCompileTasks "client" clientGens SUPPORTED_CLIENT_GENERATORS
          "build-client-" with
      | .error e => .error e
      | .ok tc => .ok (ts ++ tc)

/-- Log path of one compile task, `reports/compile/<scope>/<service>.log`. -/
def compileLogPath (task : CompileTask) : String :=
  ".oav/reports/compile/" ++ task.scope ++ "/" ++ task.service ++ ".log"

/-- The per-task loop of `run_compile`: run each build service in order
(outcome `env i` for the `i`-th launch), append one `ok`/`fail` entry per
completed task; a hard error propagates at once.  The stage result is
`failures == 0`. -/
def runCompileTasks (env : Nat → Except String Bool) :
    Nat → List CompileTask → StageOutcome
  | _, [] => ⟨.ok true, [], 0⟩
  | i, task :: rest =>
    match env i with
    | .error e => ⟨.error e, [], 0⟩
    | .ok success =>
      let entry : StatusEntry :=
        ⟨"compile", task.scope, task.name, if success then "ok" else "fail", compileLogPath task⟩
      let tail := runCompileTasks env (i + 1) rest
      match tail.result with
      | .error e => ⟨.error e, entry :: tail.entries, 1 + tail.runs⟩
      | .ok restOk => ⟨.ok (success && restOk), entry :: tail.entries, 1 + tail.runs⟩

/-- Model of `run_compile`: resolve every task for the mode's scopes, then run them. -/
def runCompile (m : Mode) (serverGens clientGens : List String)
    (env : Nat → Except String Bool) : StageOutcome :=
  match resolveAllCompileTasks m serverGens clientGens with
  | .error e => ⟨.error e, [], 0⟩
  | .ok tasks => runCompileTasks env 0 tasks

/-! ## Orchestrator (src/lib.rs `cmd_validate` stage loop, lines 282-317, and
`main` of src/bin/oav.rs) -/

/-- The three stage toggles of the configuration consulted by the stage
loop (`config.lint`, `config.generate`, `config.compile`). -/
structure Toggles where
  lint : Bool
  generate : Bool
  compile : Bool

/-- The `Result<bool>` outcome each stage would produce if attempted:
`.ok true` success, `.ok false` stage failure, `.error` a hard I/O error that
`run_step(...)?` propagates out of `cmd_validate`. -/
structure StageEnv where
  lintResult : Except String Bool
  generateResult : Except String Bool
  compileResult : Except String Bool
  reportResult : Except String Bool

/-- What one pass through the stage loop did: which stages were attempted, in
order; the final failure count; and `cmd_validate`'s return value
(`.error` makes the process exit nonzero). -/
structure ValidateTrace where
  attempted : List String
  failures : Nat
  outcome : Except String Unit

/-- Lines 313-334 of `cmd_validate`: the report stage is attempted
unconditionally and its result discarded (`let _ = run_step(...)`); then the
run bails with an error iff `failures > 0`. -/
def finishValidate (attempted : List String) (failures : Nat) : ValidateTrace :=
  let attempted := attempted ++ ["report"]
  if failures > 0 then
    ⟨attempted, failures, .error "Validation finished with failures. See .oav/reports for details."⟩
  else ⟨attempted, failures, .ok ()⟩

/-- Lines 301-311 of `cmd_validate`: compile runs only when its own toggle
and the generate toggle are both on ("Skipping compile (generate disabled)"
otherwise); a failure adds one to the failure count. -/
def compileStage (t : Toggles) (env : StageEnv) (attempted : List String)
    (failures : Nat) : ValidateTrace :=
  if t.compile then
    if t.generate then
      match env.compileResult with
      | .error e => ⟨attempted ++ ["compile"], failures, .error e⟩
      | .ok ok => finishValidate (attempted ++ ["compile"]) (if ok then failures else failures + 1)
    else finishValidate attempted failures
  else finishValidate attempted failures

/-- Lines 292-299 of `cmd_validate`: the generate stage, gated by its toggle;
a failure adds one to the failure count. -/
def generateStage (t : Toggles) (env : StageEnv) (attempted : List String)
    (failures : Nat) : ValidateTrace :=
  if t.generate then
    match env.generateResult with
    | .error e => ⟨attempted ++ ["generate"], failures, .error e⟩
    | .ok ok => compileStage t env (attempted ++ ["generate"]) (if ok then failures else failures + 1)
  else compileStage t env attempted failures

/-- Lines 282-334 of `cmd_validate`: the stage loop, from `failures = 0`
through the final bail-or-succeed. -/
def validateStages (t : Toggles) (env : StageEnv) : ValidateTrace :=
  if t.lint then
    match env.lintResult with
    | .error e => ⟨["lint"], 0, .error e⟩
    | .ok ok => generateStage t env ["lint"] (if ok then 0 else 1)
  else generateStage t env [] 0

/-- Model of `main` of src/bin/oav.rs: exit status 1 when `run()` returned an error,
0 otherwise. -/
def mainExitCode (r : Except String Unit) : Nat :=
  match r with
  | .ok _ => 0
  | .error _ => 1

/-- One of the two fan-out scopes of the generate/compile stages. -/
inductive CScope
  | server
  | client
deriving DecidableEq, Repr

/-- Whether the mode makes a stage fan out to the given scope (the
`matches!(config.mode, Mode::Server | Mode::Both)` tests). -/
def scopeIncluded : Mode → CScope → Bool
  | .server, .server => true
  | .client, .client => true
  | .both, _ => true
  | _, _ => false

/-- The requested-target list the configuration supplies for a scope
(`config.server_generators` / `config.client_generators`). -/
def requestedFor : CScope → List String → List String → List String
  | .server, serverGens, _ => serverGens
  | .client, _, clientGens => clientGens

/-- The hard-coded supported compile set for a scope. -/
def supportedFor : CScope → List String
  | .server => SUPPORTED_SERVER_GENERATORS
  | .client => SUPPORTED_CLIENT_GENERATORS

end OAV

namespace OAV

/-! ## Theorems -/

/-- C2: for every validate invocation (whose lint, generate and compile
stages, where attempted, returned a boolean outcome rather than a hard I/O
error), the report stage is attempted regardless of those outcomes and of the
toggles, and the report result — discarded by `let _ = run_step(...)` — never
changes the failure count or the exit outcome. -/
theorem report_always_attempted (t : Toggles) (env : StageEnv)
    (bl bg bc : Bool) (r : Except String Bool)
    (hl : env.lintResult = .ok bl) (hg : env.generateResult = .ok bg)
    (hc : env.compileResult = .ok bc) :
    "report" ∈ (validateStages t env).attempted ∧
      validateStages t { env with reportResult := r } = validateStages t env := by
  obtain ⟨l, g, c⟩ := t
  obtain ⟨el, eg, ec, er⟩ := env
  simp only at hl hg hc
  subst hl hg hc
  cases l <;> cases g <;> cases c <;> cases bl <;> cases bg <;> cases bc <;>
    simp [validateStages, generateStage, compileStage, finishValidate]

/-- C2 witness: all stages enabled and failing, report erroring. -/
theorem report_always_attempted_witness :
    "report" ∈ (validateStages ⟨true, true, true⟩
        ⟨.ok false, .ok false, .ok false, .ok true⟩).attempted ∧
      validateStages ⟨true, true, true⟩
          ⟨.ok false, .ok false, .ok false, .error "disk full"⟩ =
        validateStages ⟨true, true, true⟩ ⟨.ok false, .ok false, .ok false, .ok true⟩ :=
  report_always_attempted ⟨true, true, true⟩ ⟨.ok false, .ok false, .ok false, .ok true⟩
    false false false (.error "disk full") rfl rfl rfl

/-- C4: whenever the generate toggle is off, the compile stage is never
attempted (so no compile task is resolved and no compile subprocess is run),
whatever the compile toggle or the would-be compile outcome, and the whole
trace — failure count included — is independent of both. -/
theorem compile_gated_on_generate (l c₁ c₂ : Bool) (env : StageEnv)
    (r : Except String Bool) :
    "compile" ∉ (validateStages ⟨l, false, c₁⟩ env).attempted ∧
      validateStages ⟨l, false, c₁⟩ { env with compileResult := r } =
        validateStages ⟨l, false, c₂⟩ env := by
  obtain ⟨el, eg, ec, er⟩ := env
  cases l <;> cases c₁ <;> cases c₂ <;> cases el <;>
    simp [validateStages, generateStage, compileStage, finishValidate] <;>
    split <;> simp

/-- C6: when the stage loop completes (no stage raised a hard I/O error), the
failure count is exactly the number of enabled stages that returned failure —
compile counting only when generate is also enabled — and the process exit
status is nonzero iff that count is positive. -/
theorem validate_exit_status (t : Toggles) (env : StageEnv) (bl bg bc : Bool)
    (hl : env.lintResult = .ok bl) (hg : env.generateResult = .ok bg)
    (hc : env.compileResult = .ok bc) :
    (validateStages t env).failures =
        (if t.lint && !bl then 1 else 0) + (if t.generate && !bg then 1 else 0) +
          (if t.compile && t.generate && !bc then 1 else 0) ∧
      mainExitCode (validateStages t env).outcome =
        (if 0 < (validateStages t env).failures then 1 else 0) := by
  obtain ⟨l, g, c⟩ := t
  obtain ⟨el, eg, ec, er⟩ := env
  simp only at hl hg hc
  subst hl hg hc
  cases l <;> cases g <;> cases c <;> cases bl <;> cases bg <;> cases bc <;>
    simp [validateStages, generateStage, compileStage, finishValidate, mainExitCode]

/-- C6 witness: lint fails, generate succeeds, compile fails: two failed
stages and a nonzero exit status. -/
theorem validate_exit_status_witness :
    (validateStages ⟨true, true, true⟩ ⟨.ok false, .ok true, .ok false, .ok true⟩).failures =
        (if true && !false then 1 else 0) + (if true && !true then 1 else 0) +
          (if true && true && !false then 1 else 0) ∧
      mainExitCode (validateStages ⟨true, true, true⟩
          ⟨.ok false, .ok true, .ok false, .ok true⟩).outcome =
        (if 0 < (validateStages ⟨true, true, true⟩
            ⟨.ok false, .ok true, .ok false, .ok false⟩).failures then 1 else 0) :=
  validate_exit_status ⟨true, true, true⟩ ⟨.ok false, .ok true, .ok false, .ok true⟩
    false true false rfl rfl rfl

/-- C3 counterexample: the runner can also return an error when the log file
opened fine but the subprocess could not be started (`Command::status`
returning an I/O error on the non-verbose path), so "error only when the log
file cannot be opened/created" fails at this concrete input. -/
theorem runner_error_without_log_failure :
    runCommandWithLogging ⟨false, true, true, true, .failed⟩ =
        .error "Failed to run Docker command" ∧
      (RunEnv.mk false true true true .failed).logOpenOk = true ∧
      "Failed to run Docker command" ≠ "Failed to open log file" :=
  ⟨rfl, rfl, by decide⟩

/-- C3 (amended): the runner returns a normal boolean outcome exactly when the
log file opens, the handle clone (non-verbose) respectively the wait (verbose)
succeeds, and the subprocess runs to completion; the boolean is then
`exit code == 0` — a nonzero exit code is `Ok(false)`, never an error.
Errors arise only from those log-file/spawn/wait I/O failures. -/
theorem runner_result_characterization (env : RunEnv) (b : Bool) :
    runCommandWithLogging env = .ok b ↔
      env.logOpenOk = true ∧ (env.verbose = true → env.waitOk = true) ∧
        (env.verbose = false → env.cloneOk = true) ∧
        ∃ code, env.spawn = .exited code ∧ b = (code == 0) := by
  obtain ⟨v, lo, co, wo, sp⟩ := env
  cases v <;> cases lo <;> cases co <;> cases wo <;> cases sp <;>
    simp [runCommandWithLogging, eq_comm]

/-- Helper for the dashboard theorem: a pair keyed by `s` is among the
rendered sections exactly when `s` is one of the three pipeline stages and its
entry filter is nonempty. -/
theorem dashboard_sections_key (entries : List StatusEntry) (s : String) :
    (∃ se, (s, se) ∈ (generateDashboard entries).sections) ↔
      (s = "lint" ∨ s = "generate" ∨ s = "compile") ∧
        entries.filter (fun e => e.stage = s) ≠ [] := by
  simp only [generateDashboard]
  constructor
  · rintro ⟨se, hmem⟩
    rw [List.mem_filterMap] at hmem
    obtain ⟨a, ha, hfa⟩ := hmem
    by_cases h : (entries.filter (fun e => e.stage = a)).isEmpty
    · rw [if_pos h] at hfa
      exact absurd hfa (by simp)
    · rw [if_neg h] at hfa
      simp only [Option.some.injEq, Prod.mk.injEq] at hfa
      obtain ⟨rfl, -⟩ := hfa
      refine ⟨by simpa using ha, ?_⟩
      simpa [List.isEmpty_iff] using h
  · rintro ⟨hs, hne⟩
    refine ⟨entries.filter (fun e => e.stage = s), ?_⟩
    rw [List.mem_filterMap]
    refine ⟨s, by rcases hs with h | h | h <;> simp [h], ?_⟩
    simp [List.isEmpty_iff, hne]

/-- C8: the dashboard reports `total` equal to the number of ledger entries,
`passed`/`failed` equal to the number of entries with status `ok`/`fail`, and
contains a section for each of the three pipeline stages exactly when at
least one entry belongs to that stage; the empty ledger renders
total = passed = failed = 0 with no sections. -/
theorem dashboard_counts_and_sections (entries : List StatusEntry) :
    (generateDashboard entries).total = entries.length ∧
      (generateDashboard entries).passed = entries.countP (fun e => decide (e.status = "ok")) ∧
      (generateDashboard entries).failed = entries.countP (fun e => decide (e.status = "fail")) ∧
      ((∃ se, ("lint", se) ∈ (generateDashboard entries).sections) ↔
        ∃ e ∈ entries, e.stage = "lint") ∧
      ((∃ se, ("generate", se) ∈ (generateDashboard entries).sections) ↔
        ∃ e ∈ entries, e.stage = "generate") ∧
      ((∃ se, ("compile", se) ∈ (generateDashboard entries).sections) ↔
        ∃ e ∈ entries, e.stage = "compile") ∧
      generateDashboard [] = ⟨0, 0, 0, []⟩ := by
  refine ⟨rfl, ?_, ?_, ?_, ?_, ?_, rfl⟩
  · simp [generateDashboard, List.countP_eq_length_filter]
  · simp [generateDashboard, List.countP_eq_length_filter]
  all_goals
    rw [dashboard_sections_key]
    simp [List.filter_eq_nil_iff]

/-- Helper: requested lists whose names are all blank resolve to no
generator configurations. -/
theorem resolveRequested_all_blank (d : DirState) (req : List String)
    (h : ∀ r ∈ req, rustTrim r = "") : resolveRequested d req = .ok [] := by
  induction req with
  | nil => rfl
  | cons r rest ih =>
    have hr : rustTrim r = "" := h r (by simp)
    simpa [resolveRequested, hr] using ih fun x hx => h x (by simp [hx])

/-- Helper: a requested non-blank name without a matching `<name>.yaml` file
makes the requested-names resolution fail. -/
theorem resolveRequested_missing (d : DirState) (req : List String)
    (h : ∃ r ∈ req, rustTrim r ≠ "" ∧ (rustTrim r ++ ".yaml") ∉ d.files) :
    ∃ e, resolveRequested d req = .error e := by
  induction req with
  | nil => simp at h
  | cons r rest ih =>
    by_cases hb : rustTrim r = ""
    · have h' : ∃ x ∈ rest, rustTrim x ≠ "" ∧ (rustTrim x ++ ".yaml") ∉ d.files := by
        obtain ⟨x, hx, hne, hmem⟩ := h
        rcases List.mem_cons.mp hx with rfl | hx'
        · exact absurd hb hne
        · exact ⟨x, hx', hne, hmem⟩
      obtain ⟨e, he⟩ := ih h'
      exact ⟨e, by simp [resolveRequested, hb, he]⟩
    · by_cases hc : (rustTrim r ++ ".yaml") ∈ d.files
      · have h' : ∃ x ∈ rest, rustTrim x ≠ "" ∧ (rustTrim x ++ ".yaml") ∉ d.files := by
          obtain ⟨x, hx, hne, hmem⟩ := h
          rcases List.mem_cons.mp hx with rfl | hx'
          · exact absurd hc hmem
          · exact ⟨x, hx', hne, hmem⟩
        obtain ⟨e, he⟩ := ih h'
        refine ⟨e, ?_⟩
        simp only [resolveRequested, if_neg hb]
        rw [if_pos (by simpa [List.contains] using hc), he]
      · refine ⟨"Missing generator config: " ++ (rustTrim r ++ ".yaml"), ?_⟩
        simp only [resolveRequested, if_neg hb]
        rw [if_neg (by simpa [List.contains] using hc)]

/-- Helper: the exhaustive list of ways `resolve_generator_configs` fails —
missing directory, a requested name without its configuration file, or no
configuration found (nothing requested and no `*.yaml` entry, or only blank
names requested). -/
theorem resolveGeneratorConfigs_isError (d : DirState) (req : List String)
    (h : d.isDir = false ∨
      (∃ r ∈ req, rustTrim r ≠ "" ∧ (rustTrim r ++ ".yaml") ∉ d.files) ∨
      (req = [] ∧ d.files.filter (fun f => hasYamlExt f) = []) ∨
      (req ≠ [] ∧ ∀ r ∈ req, rustTrim r = "")) :
    ∃ e, resolveGeneratorConfigs d req = .error e := by
  by_cases hd : d.isDir
  · rcases h with h | h | ⟨hreq, hfil⟩ | ⟨hne, hbl⟩
    · rw [hd] at h; cases h
    · have hne : ¬req.isEmpty := by
        obtain ⟨r, hr, -⟩ := h
        cases req
        · cases hr
        · simp
      obtain ⟨e, he⟩ := resolveRequested_missing d req h
      exact ⟨e, by simp [resolveGeneratorConfigs, hd, hne, he]⟩
    · subst hreq
      exact ⟨"No generator configs found",
        by simp [resolveGeneratorConfigs, hd, hfil, List.insertionSort]⟩
    · have hne' : ¬req.isEmpty := by cases req <;> simp_all
      refine ⟨"No generator configs found", ?_⟩
      simp [resolveGeneratorConfigs, hd, hne', resolveRequested_all_blank d req hbl,
        List.insertionSort]
  · exact ⟨"Missing config directory", by simp [resolveGeneratorConfigs, hd]⟩

/-- C1: whenever generate-target resolution for a scope fails — the
configuration directory is missing, a requested name has no configuration
file, or no configuration is found — the stage appends exactly one entry for
that scope, the synthetic `(generate, label, _config_, fail)` record, runs no
generator subprocess, and returns stage failure. -/
theorem generate_config_failfast (label : String) (d : DirState) (req : List String)
    (env : Nat → Except String Bool)
    (h : d.isDir = false ∨
      (∃ r ∈ req, rustTrim r ≠ "" ∧ (rustTrim r ++ ".yaml") ∉ d.files) ∨
      (req = [] ∧ d.files.filter (fun f => hasYamlExt f) = []) ∨
      (req ≠ [] ∧ ∀ r ∈ req, rustTrim r = "")) :
    runGenerateForLabel label d req env =
      ⟨.ok false, [⟨"generate", label, "_config_", "fail", generateErrorLog label⟩], 0⟩ := by
  obtain ⟨e, he⟩ := resolveGeneratorConfigs_isError d req h
  simp [runGenerateForLabel, he]

/-- C1 witness: the server scope requesting the name `missing` against an
existing but empty configuration directory. -/
theorem generate_config_failfast_witness :
    runGenerateForLabel "server" ⟨true, []⟩ ["missing"] (fun _ => .ok true) =
      ⟨.ok false, [⟨"generate", "server", "_config_", "fail", generateErrorLog "server"⟩], 0⟩ :=
  generate_config_failfast "server" ⟨true, []⟩ ["missing"] (fun _ => .ok true)
    (Or.inr (Or.inl ⟨"missing", by simp, by decide, by simp⟩))

/-- Helper: a name outside the supported set makes the compile task loop
fail. -/
theorem tasksFor_unsupported (scope : String) (supported : List String) (pfx : String)
    (names : List String) (h : ∃ n ∈ names, n ∉ supported) :
    ∃ e, tasksFor scope supported pfx names = .error e := by
  induction names with
  | nil => simp at h
  | cons n rest ih =>
    by_cases hc : n ∈ supported
    · have h' : ∃ m ∈ rest, m ∉ supported := by
        obtain ⟨m, hm, hns⟩ := h
        rcases List.mem_cons.mp hm with rfl | hm'
        · exact absurd hc hns
        · exact ⟨m, hm', hns⟩
      obtain ⟨e, he⟩ := ih h'
      refine ⟨e, ?_⟩
      simp only [tasksFor]
      rw [if_pos (by simpa [List.contains] using hc), he]
    · refine ⟨"Unsupported " ++ scope ++ " generator for compile: " ++ n, ?_⟩
      simp only [tasksFor]
      rw [if_neg (by simpa [List.contains] using hc)]

/-- Helper: a requested non-blank unsupported name makes one scope's
`resolve_compile_tasks` fail. -/
theorem resolveCompileTasks_unsupported (scope : String) (requested supported : List String)
    (pfx : String) (h : ∃ r ∈ requested, rustTrim r ≠ "" ∧ rustTrim r ∉ supported) :
    ∃ e, resolveCompileTasks scope requested supported pfx = .error e := by
  apply tasksFor_unsupported
  obtain ⟨r, hr, hne, hns⟩ := h
  have hreq : ¬requested.isEmpty := by cases requested; cases hr; simp
  refine ⟨rustTrim r, ?_, hns⟩
  simp only [compileNames, if_neg hreq, List.mem_filter, List.mem_map]
  exact ⟨⟨r, hr, rfl⟩, by simpa using hne⟩

/-- Helper: all-blank nonempty requested lists resolve to no compile tasks. -/
theorem compileNames_blank (req supported : List String) (hne : req ≠ [])
    (hbl : ∀ r ∈ req, rustTrim r = "") : compileNames req supported = [] := by
  have hreq : ¬req.isEmpty := by cases req <;> simp_all
  simp only [compileNames, if_neg hreq, List.filter_eq_nil_iff, List.mem_map]
  rintro a ⟨r, hr, rfl⟩
  simpa using hbl r hr

/-- C5: if, for a scope the mode includes, some requested (trimmed, non-blank)
compile target is outside the hard-coded supported set of that scope, the
compile stage aborts with an error before appending any status entry and
before launching any build subprocess. -/
theorem compile_unsupported_aborts (m : Mode) (sG cG : List String)
    (env : Nat → Except String Bool) (sc : CScope)
    (hin : scopeIncluded m sc = true)
    (h : ∃ r ∈ requestedFor sc sG cG, rustTrim r ≠ "" ∧ rustTrim r ∉ supportedFor sc) :
    ∃ e, runCompile m sG cG env = ⟨.error e, [], 0⟩ := by
  have herr : ∃ e, resolveAllCompileTasks m sG cG = .error e := by
    cases m <;> cases sc
    case server.server =>
      simp only [requestedFor, supportedFor] at h
      exact resolveCompileTasks_unsupported "server" sG SUPPORTED_SERVER_GENERATORS "build-" h
    case server.client => simp [scopeIncluded] at hin
    case client.server => simp [scopeIncluded] at hin
    case client.client =>
      simp only [requestedFor, supportedFor] at h
      exact resolveCompileTasks_unsupported "client" cG SUPPORTED_CLIENT_GENERATORS
        "build-client-" h
    case both.server =>
      simp only [requestedFor, supportedFor] at h
      obtain ⟨e, he⟩ :=
        resolveCompileTasks_unsupported "server" sG SUPPORTED_SERVER_GENERATORS "build-" h
      exact ⟨e, by simp [resolveAllCompileTasks, he]⟩
    case both.client =>
      simp only [requestedFor, supportedFor] at h
      rcases hs : resolveCompileTasks "server" sG SUPPORTED_SERVER_GENERATORS "build-" with
        e | ts
      · exact ⟨e, by simp [resolveAllCompileTasks, hs]⟩
      · obtain ⟨e, he⟩ := resolveCompileTasks_unsupported "client" cG
          SUPPORTED_CLIENT_GENERATORS "build-client-" h
        exact ⟨e, by simp [resolveAllCompileTasks, hs, he]⟩
  obtain ⟨e, he⟩ := herr
  exact ⟨e, by simp [runCompile, he]⟩

/-- C5 witness: server mode requesting the unsupported name `bogus`. -/
theorem compile_unsupported_aborts_witness :
    ∃ e, runCompile .server ["bogus"] [] (fun _ => .ok true) = ⟨.error e, [], 0⟩ :=
  compile_unsupported_aborts .server ["bogus"] [] (fun _ => .ok true) .server rfl
    ⟨"bogus", by decide, by decide, by decide⟩

/-- C10: a requested compile-target list consisting only of blank names
resolves to zero tasks, appends no entry and returns vacuous success for
every mode, while the generate stage on the same all-blank requested list
fails with the single synthetic `_config_` entry. -/
theorem compile_blank_targets_vacuous (req : List String) (m : Mode)
    (env genv : Nat → Except String Bool) (label : String) (d : DirState)
    (hne : req ≠ []) (hbl : ∀ r ∈ req, rustTrim r = "") :
    runCompile m req req env = ⟨.ok true, [], 0⟩ ∧
      runGenerateForLabel label d req genv =
        ⟨.ok false, [⟨"generate", label, "_config_", "fail", generateErrorLog label⟩], 0⟩ := by
  constructor
  · have hs := compileNames_blank req SUPPORTED_SERVER_GENERATORS hne hbl
    have hc := compileNames_blank req SUPPORTED_CLIENT_GENERATORS hne hbl
    cases m <;>
      simp [runCompile, resolveAllCompileTasks, resolveCompileTasks, hs, hc, tasksFor,
        runCompileTasks]
  · obtain ⟨e, he⟩ := resolveGeneratorConfigs_isError d req
      (Or.inr (Or.inr (Or.inr ⟨hne, hbl⟩)))
    simp [runGenerateForLabel, he]

/-- C10 witness: the single blank name, in both-scopes mode, against an
existing empty configuration directory. -/
theorem compile_blank_targets_vacuous_witness :
    runCompile .both [""] [""] (fun _ => .ok true) = ⟨.ok true, [], 0⟩ ∧
      runGenerateForLabel "server" ⟨true, []⟩ [""] (fun _ => .ok true) =
        ⟨.ok false, [⟨"generate", "server", "_config_", "fail", generateErrorLog "server"⟩],
          0⟩ :=
  compile_blank_targets_vacuous [""] .both (fun _ => .ok true) (fun _ => .ok true)
    "server" ⟨true, []⟩ (by simp) (by decide)

/-- C9: when no generate targets are requested and resolution succeeds, the
resolved list is exactly the configuration-directory entries with extension
`yaml` (as a permutation), sorted by name in ascending order; consequently
resolution is deterministic — any permutation of the directory listing
resolves to the same list. -/
theorem generate_default_resolution_sorted (d : DirState) (l : List String)
    (h : resolveGeneratorConfigs d [] = .ok l) :
    l.Perm (d.files.filter fun f => hasYamlExt f) ∧
      l.Sorted (· ≤ ·) ∧
      ∀ files', d.files.Perm files' →
        resolveGeneratorConfigs ⟨d.isDir, files'⟩ [] = .ok l := by
  by_cases hd : d.isDir
  · rw [resolveGeneratorConfigs, if_neg (by simp [hd])] at h
    simp only [List.isEmpty_nil, if_true] at h
    by_cases hemp :
        (List.insertionSort (fun a b : String => a ≤ b)
          (d.files.filter fun f => hasYamlExt f)).isEmpty
    · rw [if_pos hemp] at h
      cases h
    · rw [if_neg hemp] at h
      obtain rfl : List.insertionSort (fun a b : String => a ≤ b)
          (d.files.filter fun f => hasYamlExt f) = l := by
        simpa using h
      refine ⟨List.perm_insertionSort _ _, List.sorted_insertionSort _ _, ?_⟩
      intro files' hperm
      have hpf : (d.files.filter fun f => hasYamlExt f).Perm
          (files'.filter fun f => hasYamlExt f) := hperm.filter _
      have heq : List.insertionSort (fun a b : String => a ≤ b)
            (files'.filter fun f => hasYamlExt f) =
          List.insertionSort (fun a b : String => a ≤ b)
            (d.files.filter fun f => hasYamlExt f) := by
        refine List.eq_of_perm_of_sorted ?_ (List.sorted_insertionSort _ _)
          (List.sorted_insertionSort _ _)
        exact ((List.perm_insertionSort _ _).trans hpf.symm).trans
          (List.perm_insertionSort _ _).symm
      rw [resolveGeneratorConfigs, if_neg (by simp [hd])]
      simp only [List.isEmpty_nil, if_true]
      rw [heq, if_neg hemp]
  · rw [resolveGeneratorConfigs, if_pos (by simp [hd])] at h
    cases h

/-- C9 witness: a directory listing `["b.yaml", "a.yaml", "c.txt"]` resolves
to the sorted yaml files `["a.yaml", "b.yaml"]`. -/
theorem generate_default_resolution_sorted_witness :
    (["a.yaml", "b.yaml"] : List String).Perm
        ((["b.yaml", "a.yaml", "c.txt"] : List String).filter fun f => hasYamlExt f) ∧
      (["a.yaml", "b.yaml"] : List String).Sorted (· ≤ ·) ∧
      ∀ files', (["b.yaml", "a.yaml", "c.txt"] : List String).Perm files' →
        resolveGeneratorConfigs ⟨true, files'⟩ [] = .ok ["a.yaml", "b.yaml"] :=
  generate_default_resolution_sorted ⟨true, ["b.yaml", "a.yaml", "c.txt"]⟩
    ["a.yaml", "b.yaml"] (by
      have hle : ¬(['b', '.', 'y', 'a', 'm', 'l'] : List Char) ≤
          ['a', '.', 'y', 'a', 'm', 'l'] := by decide
      simp [resolveGeneratorConfigs, List.insertionSort, List.orderedInsert, hle])

/-- Helper: a split never yields the empty list of pieces. -/
theorem splitCh_ne_nil (c : Char) (l : List Char) : splitCh c l ≠ [] := by
  induction l with
  | nil => simp [splitCh]
  | cons x xs ih =>
    simp only [splitCh]
    split
    · simp
    · rcases h : splitCh c xs with _ | ⟨hd, tl⟩
      · exact absurd h ih
      · simp

/-- Helper: splitting a separator-free piece yields just that piece. -/
theorem splitCh_not_mem {c : Char} {l : List Char} (h : c ∉ l) : splitCh c l = [l] := by
  induction l with
  | nil => rfl
  | cons x xs ih =>
    have hx : ¬x = c := by rintro rfl; exact h (by simp)
    have hxs : c ∉ xs := fun hm => h (by simp [hm])
    simp [splitCh, hx, ih hxs]

/-- Helper: splitting peels one separator-free piece at a time. -/
theorem splitCh_append {c : Char} {l₁ : List Char} (l₂ : List Char) (h : c ∉ l₁) :
    splitCh c (l₁ ++ c :: l₂) = l₁ :: splitCh c l₂ := by
  induction l₁ with
  | nil => simp [splitCh]
  | cons x xs ih =>
    have hx : ¬x = c := by rintro rfl; exact h (by simp)
    have hxs : c ∉ xs := fun hm => h (by simp [hm])
    rw [List.cons_append]
    simp only [splitCh, if_neg hx, ih hxs]

/-- Helper: a split has one more piece than the occurrences of the
separator. -/
theorem splitCh_length (c : Char) (l : List Char) :
    (splitCh c l).length = l.count c + 1 := by
  induction l with
  | nil => simp [splitCh]
  | cons x xs ih =>
    by_cases hx : x = c
    · subst hx
      simp [splitCh, ih, List.count_cons]
    · rcases h : splitCh c xs with _ | ⟨hd, tl⟩
      · exact absurd h (splitCh_ne_nil c xs)
      · rw [h] at ih
        simp only [splitCh, if_neg hx, h, List.length_cons, List.count_cons]
        simp only [List.length_cons] at ih
        simp [ih, hx]

/-- Helper: dropping the final empty piece commutes with a cons whose tail
is nonempty. -/
theorem dropFinalEmpty_cons (l : List Char) {parts : List (List Char)} (h : parts ≠ []) :
    dropFinalEmpty (l :: parts) = l :: dropFinalEmpty parts := by
  rcases parts with _ | ⟨p, ps⟩
  · exact absurd rfl h
  · rfl

/-- Helper: a line not ending in a carriage return is read back verbatim. -/
theorem stripTrailingCR_id {l : List Char} (h : l.getLast? ≠ some '\r') :
    stripTrailingCR l = l := by
  simp [stripTrailingCR, h]

/-- Helper: a clean entry's line body contains no newline. -/
theorem lineBody_no_newline {e : StatusEntry} (h : entryClean e) : '\n' ∉ lineBody e := by
  obtain ⟨⟨-, h1⟩, ⟨-, h2⟩, ⟨-, h3⟩, ⟨-, h4⟩, ⟨-, h5⟩⟩ := h
  simp [lineBody, h1, h2, h3, h4, h5]

/-- Helper: the last character of a line body is the last character of its
`log_path` field, or a tab when that field is empty — never a carriage
return unless `log_path` ends in one. -/
theorem lineBody_getLast_ne_cr {e : StatusEntry}
    (h : e.log_path.data.getLast? ≠ some '\r') :
    (lineBody e).getLast? ≠ some '\r' := by
  have key : ∀ (pre lp : List Char), lp.getLast? ≠ some '\r' →
      (pre ++ '\t' :: lp).getLast? ≠ some '\r' := by
    intro pre lp hlp
    have or_some : ∀ (x : Char) (xs : List Char) (o : Option Char),
        ((x :: xs).getLast?).or o = (x :: xs).getLast? := by
      intro x xs o
      rcases hx : (x :: xs).getLast? with _ | v
      · rw [List.getLast?_eq_none_iff] at hx
        cases hx
      · rfl
    rw [List.getLast?_append, or_some]
    rcases lp with _ | ⟨y, ys⟩
    · simp
    · rw [List.getLast?_cons_cons]
      exact hlp
  exact key _ _ (key _ _ (key _ _ (key _ _ h)))

/-- Helper: parsing a clean entry's line body recovers the entry. -/
theorem parse_lineBody {e : StatusEntry} (h : entryClean e) :
    parseStatusLine (lineBody e) = some e := by
  obtain ⟨⟨h1, -⟩, ⟨h2, -⟩, ⟨h3, -⟩, ⟨h4, -⟩, ⟨h5, -⟩⟩ := h
  have hsplit : splitCh '\t' (lineBody e) =
      [e.stage.data, e.scope.data, e.target.data, e.status.data, e.log_path.data] := by
    simp only [lineBody]
    rw [splitCh_append _ h1, splitCh_append _ h2, splitCh_append _ h3, splitCh_append _ h4,
      splitCh_not_mem h5]
  simp only [parseStatusLine, hsplit]
  rfl

/-- Helper: the characters `append_status` writes for one entry. -/
theorem statusLine_data (e : StatusEntry) :
    (statusLine e).data = lineBody e ++ ['\n'] := by
  have ht : ("\t" : String).data = ['\t'] := rfl
  have hn : ("\n" : String).data = ['\n'] := rfl
  simp [statusLine, lineBody, String.data_append, ht, hn]

/-- Helper: the ledger file after a run holds each entry's line in order. -/
theorem ledgerContent_data (es : List StatusEntry) :
    (ledgerContent es).data = (es.map fun e => lineBody e ++ ['\n']).flatten := by
  have h : ∀ (l : List StatusEntry) (acc : String), (l.foldl appendStatus acc).data =
      acc.data ++ (l.map fun e => lineBody e ++ ['\n']).flatten := by
    intro l
    induction l with
    | nil => intro acc; simp
    | cons e rest ih =>
      intro acc
      simp only [List.foldl_cons, List.map_cons, List.flatten_cons]
      rw [ih]
      simp [appendStatus, String.data_append, statusLine_data]
  simpa using h es ""

/-- Helper: reading back the concatenation of clean entry lines yields the
entries, in order. -/
theorem load_lines (es : List StatusEntry)
    (hclean : ∀ e ∈ es, entryClean e)
    (hcr : ∀ e ∈ es, e.log_path.data.getLast? ≠ some '\r') :
    ((dropFinalEmpty (splitCh '\n' ((es.map fun e => lineBody e ++ ['\n']).flatten))).map
        stripTrailingCR).filterMap parseStatusLine = es := by
  induction es with
  | nil => rfl
  | cons e rest ih =>
    have he : entryClean e := hclean e (by simp)
    have hecr := hcr e (by simp)
    simp only [List.map_cons, List.flatten_cons, List.append_assoc, List.singleton_append]
    rw [splitCh_append _ (lineBody_no_newline he),
      dropFinalEmpty_cons _ (splitCh_ne_nil _ _)]
    simp only [List.map_cons]
    rw [stripTrailingCR_id (lineBody_getLast_ne_cr hecr),
      List.filterMap_cons_some (parse_lineBody he)]
    congr 1
    exact ih (fun x hx => hclean x (by simp [hx])) (fun x hx => hcr x (by simp [hx]))

/-- Helper: a line with fewer than five tab-separated fields parses to
nothing. -/
theorem parse_short {l : List Char} (h : (splitCh '\t' l).length < 5) :
    parseStatusLine l = none := by
  rcases hs : splitCh '\t' l with _ | ⟨a, _ | ⟨b, _ | ⟨c, _ | ⟨d, _ | ⟨f, rest⟩⟩⟩⟩⟩ <;>
    simp only [parseStatusLine, hs]
  rw [hs] at h
  simp at h
  omega

/-- Helper: stripping a trailing carriage return cannot add tab-separated
fields. -/
theorem splitCh_stripTrailingCR_le (c : Char) (l : List Char) :
    (splitCh c (stripTrailingCR l)).length ≤ (splitCh c l).length := by
  rw [splitCh_length, splitCh_length]
  unfold stripTrailingCR
  split
  · exact Nat.add_le_add_right (l.dropLast_sublist.count_le c) 1
  · exact le_rfl

/-- C7 (amended): appending entries whose fields contain no tab or newline
and whose `log_path` does not end in a carriage return, then loading the
file, returns the same entries in the same order; a malformed line with
fewer than five tab-separated fields (here prepended) is skipped without an
error. -/
theorem ledger_roundtrip (es : List StatusEntry) (junk : List Char)
    (hclean : ∀ e ∈ es, entryClean e)
    (hcr : ∀ e ∈ es, e.log_path.data.getLast? ≠ some '\r')
    (hjn : '\n' ∉ junk) (hjshort : (splitCh '\t' junk).length < 5) :
    loadStatusEntries (ledgerContent es) = es ∧
      loadStatusEntries (junk.asString ++ "\n" ++ ledgerContent es) = es := by
  constructor
  · unfold loadStatusEntries rustLines
    rw [ledgerContent_data]
    exact load_lines es hclean hcr
  · unfold loadStatusEntries rustLines
    have hdata : (junk.asString ++ "\n" ++ ledgerContent es).data =
        junk ++ '\n' :: (ledgerContent es).data := by
      have hn : ("\n" : String).data = ['\n'] := rfl
      have hj : (junk.asString).data = junk := rfl
      simp [String.data_append, hn, hj]
    rw [hdata, splitCh_append _ hjn, dropFinalEmpty_cons _ (splitCh_ne_nil _ _)]
    simp only [List.map_cons]
    rw [List.filterMap_cons_none
      (parse_short (lt_of_le_of_lt (splitCh_stripTrailingCR_le _ _) hjshort))]
    rw [ledgerContent_data]
    exact load_lines es hclean hcr

/-- C7 witness: one concrete clean entry round-trips, with a malformed line
prepended and skipped. -/
theorem ledger_roundtrip_witness :
    loadStatusEntries (ledgerContent [⟨"generate", "server", "spring", "ok",
        ".oav/reports/generate/server/spring.log"⟩]) =
      [⟨"generate", "server", "spring", "ok", ".oav/reports/generate/server/spring.log"⟩] ∧
      loadStatusEntries (List.asString ['b', 'a', 'd'] ++ "\n" ++
          ledgerContent [⟨"generate", "server", "spring", "ok",
            ".oav/reports/generate/server/spring.log"⟩]) =
        [⟨"generate", "server", "spring", "ok", ".oav/reports/generate/server/spring.log"⟩] :=
  ledger_roundtrip
    [⟨"generate", "server", "spring", "ok", ".oav/reports/generate/server/spring.log"⟩]
    ['b', 'a', 'd'] (by decide) (by decide) (by decide) (by decide)

/-- C7 counterexample: a log path ending in a carriage return satisfies the
claim's hypothesis (its fields contain no tab and no newline), yet the entry
does not round-trip — `str::lines` strips the `\r` before the terminating
newline on read. -/
theorem ledger_roundtrip_cr_loss :
    entryClean ⟨"lint", "spec", "redocly", "ok", "x\r"⟩ ∧
      loadStatusEntries (ledgerContent [⟨"lint", "spec", "redocly", "ok", "x\r"⟩]) ≠
        [⟨"lint", "spec", "redocly", "ok", "x\r"⟩] :=
  ⟨by decide, by decide⟩

end OAV